import Mathlib

/-!
Verification development for the gearley repository.

The repository contains two Earley-parser implementations:

* package `earley3` (file `earley3/earley.go`): a chart parser with a
  synthetic gamma rule, per-column predict/scan/complete, an epsilon-closure
  loop (`handleEpsilons`) and a parse-forest extractor (`buildTrees`);
* package `gearley` (files `earley_item.go`, the state-set and symbol files,
  and `grammar.Parse`): a rune-based recognizer without a gamma rule.

Both are embedded below, faithfully to the Go source.  Two facts about the Go
semantics matter throughout and are recorded here once:

1. `TableState.getNextTerm` returns `*ProductionTerm` — a pointer to the
   interface type.  When such a value is stored in an `interface{}`, the
   dynamic type of the box is `*ProductionTerm`.  The type switch in
   `Parser.parse` (`case *Rule:`, `case *Terminal:`) and the type assertions
   `term.(*Rule)` in `Parser.complete` and `Parser.handleEpsilons` test the
   dynamic type for being exactly `*Rule` resp. `*Terminal`; they therefore
   never succeed.  The embedding models the boxed value explicitly (`GoDyn`)
   and the assertions as functions on it (`asPtrRule`, `asPtrTerminal`).

2. Go pointer identity: a freshly allocated `&TableState{...}` is distinct
   from every pointer already stored, and `TableColumn.insert` returns the
   argument pointer itself exactly when it appends.  Hence the comparison
   `st == st2` in `predict`/`complete` is `true` exactly when the insert
   appended a new item.  The embedding returns that Boolean (`wasNew`)
   directly from `insertGo`.

Pointers to productions, rules and columns are represented by indices into
the corresponding tables/lists: each production and rule is allocated once
by the grammar-building code, and the columns of one parser are distinct
objects, so index equality coincides with Go pointer equality.
-/

namespace Gearley3

/-- Dynamic types of the values stored in `Production.Terms`.  In this
repository every term is either a `Terminal` value (from
`NewProductionFromTerms(Terminal{Value: ...})`) or a `*Rule` pointer (from
`NewProductionFromTerms(someRule)` where `someRule` is a `*Rule`); see the
call sites in the tests and the gamma production in `Parser.parse`. -/
inductive PTerm where
  | terminalV (value : String)
  | rulePtr (r : Nat)
deriving DecidableEq, Repr

/-- `Production`: the `Terms` slice.  The `Rules` field is computed by
`getRules` (see `rulesOf`). -/
structure GoProd where
  terms : List PTerm
deriving DecidableEq, Repr

/-- `Rule`: a name and the productions added under it, as indices into the
production table (Go: `[]*Production`). -/
structure GoRule where
  name : String
  productions : List Nat
deriving DecidableEq, Repr

/-- A grammar: the rule objects and the production objects, each indexed by
allocation order (indices stand for Go pointers). -/
structure Grammar where
  rules : List GoRule
  prods : List GoProd
deriving DecidableEq, Repr

def prodAt (prods : List GoProd) (pid : Nat) : GoProd :=
  prods.getD pid ⟨[]⟩

def ruleAt (g : Grammar) (rid : Nat) : GoRule :=
  g.rules.getD rid ⟨"", []⟩

/-- `Production.getRules`: collects the terms whose dynamic type is `Rule`
(the value type: `switch term.(type) { case Rule: ... }`).  A `Terminal`
value is not a `Rule`; a `*Rule` pointer is not a `Rule` either, so neither
constructor is collected and the `Rules` field is always empty. -/
def rulesOf (terms : List PTerm) : List GoRule :=
  terms.foldr
    (fun t acc =>
      match t with
      | .terminalV _ => acc
      | .rulePtr _ => acc)
    []

/-- `TableState`: rule name, production pointer, dot position, start column
pointer and end column pointer (`none` models the nil pointer of a freshly
constructed state; `insert` sets it to the column it appends to). -/
structure TableState where
  name : String
  production : Nat
  dotIndex : Nat
  startCol : Nat
  endCol : Option Nat
deriving DecidableEq, Repr

/-- `TableColumn`: scanned token, position index, and the ordered state
list. -/
structure TableColumn where
  token : String
  index : Nat
  states : List TableState
deriving DecidableEq, Repr

abbrev Chart := List TableColumn

def defaultCol : TableColumn := ⟨"", 0, []⟩

def colAt (ch : Chart) (k : Nat) : TableColumn :=
  ch.getD k defaultCol

def setCol (ch : Chart) (k : Nat) (c : TableColumn) : Chart :=
  ch.set k c

/-- `TableState.isCompleted`: `dotIndex >= production.size()`. -/
def isCompleted (prods : List GoProd) (s : TableState) : Bool :=
  decide (s.dotIndex ≥ (prodAt prods s.production).terms.length)

/-- The value of `var term interface{} = state.getNextTerm()`: an interface
box whose dynamic type is `*ProductionTerm` (or a nil pointer for a
completed state, still boxed with dynamic type `*ProductionTerm`). -/
inductive GoDyn where
  | ptrProductionTerm (t : PTerm)
  | nilPtr
deriving DecidableEq, Repr

/-- `TableState.getNextTerm`, boxed into `interface{}` as in the callers:
nil for a completed state, otherwise `&production.Terms[dotIndex]`. -/
def getNextTermD (prods : List GoProd) (s : TableState) : GoDyn :=
  if isCompleted prods s then .nilPtr
  else .ptrProductionTerm ((prodAt prods s.production).terms.getD s.dotIndex (.terminalV ""))

/-- The type assertion `term.(*Rule)`: succeeds only when the dynamic type of
the box is exactly `*Rule`.  The box built from `getNextTerm` always has
dynamic type `*ProductionTerm`, so the assertion always fails. -/
def asPtrRule (d : GoDyn) : Option Nat :=
  match d with
  | .ptrProductionTerm _ => none
  | .nilPtr => none

/-- The type assertion `term.(*Terminal)` (the `case *Terminal:` arm of the
switch in `parse`); like `asPtrRule` it never succeeds on a value of dynamic
type `*ProductionTerm`. -/
def asPtrTerminal (d : GoDyn) : Option String :=
  match d with
  | .ptrProductionTerm _ => none
  | .nilPtr => none

/-- `TableColumn.insert`: scan the current states for one equal (Go struct
equality `*state == *s`, i.e. all five fields including `endCol`) to the
candidate; if found return it with `wasNew = false`, otherwise append the
candidate, set its `endCol` to this column, and return it with
`wasNew = true`.  The Boolean is the pointer comparison `st == st2` of the
callers (fresh allocation: equal to the result exactly when appended). -/
def insertGo (col : TableColumn) (s : TableState) : TableColumn × TableState × Bool :=
  match col.states.find? (fun s0 => s0 == s) with
  | some s0 => (col, s0, false)
  | none =>
      let s1 : TableState := { s with endCol := some col.index }
      ({ col with states := col.states ++ [s1] }, s1, true)

/-- `Parser.scan`: operates through the `*TableColumn` pointer it receives;
if the token equals the column's token, insert the advanced item (dot + 1,
same name/production/origin, `endCol` nil until `insert` sets it). -/
def scanGo (col : TableColumn) (s : TableState) (token : String) : TableColumn :=
  if token = col.token then
    (insertGo col ⟨s.name, s.production, s.dotIndex + 1, s.startCol, none⟩).1
  else col

/-- The loop of `Parser.predict` over the rule's productions: insert
`(rule.Name, prod, 0, col)` for each; `changed` accumulates `st == st2`,
i.e. `wasNew` (`colIdx` is the index of the column pointer `col`, used as
the new states' `startCol`). -/
def predictFold (name : String) (colIdx : Nat) (pids : List Nat)
    (acc : TableColumn × Bool) : TableColumn × Bool :=
  pids.foldl
    (fun acc pid =>
      let r := insertGo acc.1 ⟨name, pid, 0, colIdx, none⟩
      (r.1, acc.2 || r.2.2))
    acc

/-- `Parser.predict`, operating through the `*TableColumn` pointer. -/
def predictGo (g : Grammar) (col : TableColumn) (rid : Nat) : TableColumn × Bool :=
  predictFold (ruleAt g rid).name col.index (ruleAt g rid).productions (col, false)

/-- `Parser.complete`: iterate the snapshot of the origin column's states;
for each whose next term asserts to a `*Rule` with the completed state's
name (never, by `asPtrRule`), insert the advanced item (note the source sets
`name: r.Name`, not the advanced item's own name).  `changed` accumulates
`st == st2` as in `predict`. -/
def completeGo (g : Grammar) (ch : Chart) (k : Nat) (state : TableState) : Chart × Bool :=
  ((colAt ch state.startCol).states).foldl
    (fun (acc : Chart × Bool) st =>
      match asPtrRule (getNextTermD g.prods st) with
      | some rid =>
          if (ruleAt g rid).name = state.name then
            let col := colAt acc.1 k
            let st1 : TableState := ⟨(ruleAt g rid).name, st.production, st.dotIndex + 1, st.startCol, none⟩
            let r := insertGo col st1
            (setCol acc.1 k r.1, acc.2 || r.2.2)
          else acc
      | none => acc)
    (ch, false)

/-- The body of one iteration of the inner loop of `Parser.parse`: if the
current state is completed run `complete`; otherwise switch on the dynamic
type of `state.getNextTerm()` — `case *Rule:` predict into this column,
`case *Terminal:` scan into column `i+1` when `i+1 < len(columns)`. -/
def stepBody (g : Grammar) (ch : Chart) (i : Nat) (state : TableState) : Chart :=
  if isCompleted g.prods state then (completeGo g ch i state).1
  else
    match asPtrRule (getNextTermD g.prods state) with
    | some rid => setCol ch i (predictGo g (colAt ch i) rid).1
    | none =>
        match asPtrTerminal (getNextTermD g.prods state) with
        | some tv =>
            if i + 1 < ch.length then setCol ch (i + 1) (scanGo (colAt ch (i + 1)) state tv)
            else ch
        | none => ch

/-- The inner loop of `Parser.parse` over one column: `for j := 0;
j < len(col.states); j++` (the length is re-read each iteration, so items
appended during the walk are visited).  `fuel` bounds the number of
iterations; `none` means the fuel ran out before the loop finished. -/
def stepInner (g : Grammar) (ch : Chart) (i j : Nat) : Nat → Option Chart
  | 0 => none
  | fuel + 1 =>
      if h : j < (colAt ch i).states.length then
        stepInner g (stepBody g ch i ((colAt ch i).states.get ⟨j, h⟩)) i (j + 1) fuel
      else some ch

/-- `changed = changed || f(...)` with Go's short-circuit `||`: when
`changed` is already true the call is skipped (no insertions happen). -/
def orCall (acc : Chart × Bool) (f : Chart → Chart × Bool) : Chart × Bool :=
  if acc.2 then acc
  else f acc.1

/-- One pass of the loop body of `Parser.handleEpsilons`: iterate the
snapshot of `col.states` (Go `range` iterates the slice as it was when the
pass began); for each state, if `term.(*Rule)` succeeds run `predict`, and
if the state is completed run `complete`, accumulating `changed` with the
short-circuiting `||`. -/
def epsilonPassGo (g : Grammar) (ch : Chart) (k : Nat) : Chart × Bool :=
  ((colAt ch k).states).foldl
    (fun (acc : Chart × Bool) state =>
      let acc1 :=
        match asPtrRule (getNextTermD g.prods state) with
        | some rid =>
            orCall acc (fun c =>
              let r := predictGo g (colAt c k) rid
              (setCol c k r.1, r.2))
        | none => acc
      if isCompleted g.prods state then orCall acc1 (fun c => completeGo g c k state)
      else acc1)
    (ch, false)

/-- `Parser.handleEpsilons`: repeat the pass while it reports a change.
`fuel` bounds the number of passes. -/
def handleEpsilonsGo (g : Grammar) (ch : Chart) (k : Nat) : Nat → Option Chart
  | 0 => none
  | fuel + 1 =>
      let r := epsilonPassGo g ch k
      if r.2 then handleEpsilonsGo g r.1 k fuel else some r.1

/-- The outer loop of `Parser.parse`: process the columns in order, running
the inner walk and then `handleEpsilons` on each. -/
def processColumns (g : Grammar) (fuel : Nat) : Chart → List Nat → Option Chart
  | ch, [] => some ch
  | ch, i :: rest => do
      let ch1 ← stepInner g ch i 0 fuel
      let ch2 ← handleEpsilonsGo g ch1 i fuel
      processColumns g fuel ch2 rest

/-- The gamma rule name, `"ɣ"` (LATIN SMALL LETTER GAMMA). -/
def GAMMA_RULE : String := "ɣ"

/-- `withGamma g start` is the production table after `parse` allocates the
gamma production `NewProductionFromTerms(startRule)`; its pointer is the
next free index, `g.prods.length`. -/
def withGamma (g : Grammar) (startRule : Nat) : Grammar :=
  { g with prods := g.prods ++ [⟨[PTerm.rulePtr startRule]⟩] }

/-- The columns built by `NewParser` (column 0 with an empty token, then one
column per token) with the gamma seed state appended directly (not via
`insert`, so its `endCol` stays nil) to column 0, as done at the top of
`Parser.parse`. -/
def mkCols : List String → Nat → Chart
  | [], _ => []
  | t :: ts, i => ⟨t, i, []⟩ :: mkCols ts (i + 1)

def seedChart (g : Grammar) (tokens : List String) : Chart :=
  ⟨"", 0, [⟨GAMMA_RULE, g.prods.length, 0, 0, none⟩]⟩ :: mkCols tokens 1

/-- `Parser.parse`: seed, process every column, then search the last column
for a state with name `GAMMA_RULE` that is completed (the source does not
check the origin).  Returns the final chart and the found state, or `none`
if some loop ran out of fuel. -/
def parseGo (g0 : Grammar) (startRule : Nat) (tokens : List String) (fuel : Nat) :
    Option (Chart × Option TableState) := do
  let g := withGamma g0 startRule
  let ch0 := seedChart g0 tokens
  let ch ← processColumns g fuel ch0 (List.range ch0.length)
  let lastCol := colAt ch (ch.length - 1)
  some (ch, lastCol.states.find? (fun s => s.name == GAMMA_RULE && isCompleted g.prods s))

/-- `strings.Fields` restricted to the space character, which is the only
whitespace occurring in the analyzed inputs: split into maximal nonempty
runs of non-space characters. -/
def splitSpacesAux : List Char → List Char → List String
  | [], cur => if cur.isEmpty then [] else [⟨cur.reverse⟩]
  | c :: rest, cur =>
      if c = ' ' then
        if cur.isEmpty then splitSpacesAux rest []
        else (⟨cur.reverse⟩ : String) :: splitSpacesAux rest []
      else splitSpacesAux rest (c :: cur)

def goFields (s : String) : List String :=
  splitSpacesAux s.data []

/-- Go runtime faults that the embedded functions can hit. -/
inductive GoPanic where
  | nilPointerDereference
  | indexOutOfRange
deriving DecidableEq, Repr

/-- `Node`: a value (here always the completed `TableState` that licensed the
node, as in `buildTreesHelper`) and the ordered children. -/
inductive Node where
  | mk (state : TableState) (children : List Node)

mutual

/-- `Parser.buildTreesHelper`.  `ruleIndex` is a Go `int` (it reaches `-1`).
The `endColArg` parameter mirrors the source's fourth parameter, which the
body never reads (it iterates `state.endCol.states` instead).  Base case
`ruleIndex < 0`: emit one node.  Otherwise the source evaluates
`state.production.Rules[ruleIndex]` — since `Rules` is always empty (see
`rulesOf`) this indexing would panic — and then walks `state.endCol.states`
up to the state itself. -/
def btHelper (g : Grammar) (ch : Chart) (fuel : Nat) (children : List Node)
    (state : TableState) (ruleIndex : Int) (_endColArg : Option Nat) :
    Option (Except GoPanic (List Node)) :=
  match fuel with
  | 0 => none
  | fuel' + 1 =>
      if ruleIndex < 0 then some (.ok [Node.mk state children])
      else
        let startColOpt : Option Nat := if ruleIndex = 0 then some state.startCol else none
        let rules := rulesOf (prodAt g.prods state.production).terms
        match rules.get? ruleIndex.toNat with
        | none => some (.error .indexOutOfRange)
        | some ruleVal =>
            match state.endCol with
            | none => some (.error .nilPointerDereference)
            | some ec =>
                btLoop g ch fuel' ((colAt ch ec).states) children state ruleVal startColOpt ruleIndex []

/-- The `for _, st := range state.endCol.states` loop of `buildTreesHelper`:
break at `st == state` (pointer identity; here the first structurally equal
occurrence), skip non-completed states, name mismatches and, when
`startCol` is set, origin mismatches; otherwise recurse into
`buildTrees(st)` and try every sub-tree. -/
def btLoop (g : Grammar) (ch : Chart) (fuel : Nat) (sts : List TableState)
    (children : List Node) (state : TableState) (ruleVal : GoRule)
    (startColOpt : Option Nat) (ruleIndex : Int) (outputs : List Node) :
    Option (Except GoPanic (List Node)) :=
  match sts with
  | [] => some (.ok outputs)
  | st :: rest =>
      if st == state then some (.ok outputs)
      else if !(isCompleted g.prods st) || st.name ≠ ruleVal.name then
        btLoop g ch fuel rest children state ruleVal startColOpt ruleIndex outputs
      else if (match startColOpt with | some sc => st.startCol != sc | none => false) then
        btLoop g ch fuel rest children state ruleVal startColOpt ruleIndex outputs
      else
        match btHelper g ch fuel []
            st ((rulesOf (prodAt g.prods st.production).terms).length - 1 : Int) st.endCol with
        | none => none
        | some (.error e) => some (.error e)
        | some (.ok subTrees) =>
            match btSubs g ch fuel subTrees children state ruleIndex st.startCol outputs with
            | none => none
            | some (.error e) => some (.error e)
            | some (.ok outputs1) =>
                btLoop g ch fuel rest children state ruleVal startColOpt ruleIndex outputs1

/-- The `for _, subTree := range self.buildTrees(st)` loop: for each
sub-tree, prepend it to the children and recurse on `ruleIndex - 1` with the
boundary `st.startCol`, appending every returned node to the outputs. -/
def btSubs (g : Grammar) (ch : Chart) (fuel : Nat) (subTrees : List Node)
    (children : List Node) (state : TableState) (ruleIndex : Int)
    (stStartCol : Nat) (outputs : List Node) :
    Option (Except GoPanic (List Node)) :=
  match subTrees with
  | [] => some (.ok outputs)
  | sub :: subs =>
      match btHelper g ch fuel (sub :: children) state (ruleIndex - 1) (some stStartCol) with
      | none => none
      | some (.error e) => some (.error e)
      | some (.ok nodes) =>
          btSubs g ch fuel subs children state ruleIndex stStartCol (outputs ++ nodes)

end

/-- `Parser.buildTrees`: on a nil state the field access `state.production`
dereferences a nil pointer; otherwise call the helper with
`len(state.production.Rules) - 1` and `state.endCol`. -/
def buildTreesGo (g : Grammar) (ch : Chart) (fuel : Nat) (stateOpt : Option TableState) :
    Option (Except GoPanic (List Node)) :=
  match stateOpt with
  | none => some (.error .nilPointerDereference)
  | some s =>
      btHelper g ch fuel [] s
        ((rulesOf (prodAt g.prods s.production).terms).length - 1 : Int) s.endCol

/-- `Parser.getTrees` applied to a parse result: build the forest from the
final state. -/
def getTreesGo (g : Grammar) (res : Chart × Option TableState) (fuel : Nat) :
    Option (Except GoPanic (List Node)) :=
  buildTreesGo g res.1 fuel res.2

mutual

/-- A production term derives a token sequence: a `Terminal` value derives
its one-token string, and a rule pointer derives whatever one of the rule's
productions derives.  This is the standard language of the context-free
grammar, used to state membership `t ∈ L(G)`. -/
inductive DerivesT (g : Grammar) : PTerm → List String → Prop where
  | terminal (v : String) : DerivesT g (.terminalV v) [v]
  | nonterm (rid pid : Nat) (w : List String) :
      pid ∈ (ruleAt g rid).productions →
      DerivesL g (prodAt g.prods pid).terms w →
      DerivesT g (.rulePtr rid) w

/-- A sequence of production terms derives the concatenation of sequences
derived by its members. -/
inductive DerivesL (g : Grammar) : List PTerm → List String → Prop where
  | nil : DerivesL g [] []
  | cons (t : PTerm) (ts : List PTerm) (w1 w2 : List String) :
      DerivesT g t w1 → DerivesL g ts w2 → DerivesL g (t :: ts) (w1 ++ w2)

end

/-- Dynamic values that can be passed to `Terminal.Equal(other interface{})`
in the scenarios of interest: the nil interface, a `string`, a `Terminal`
value, a `Rule` value (carrying its name), and a `*Terminal` pointer. -/
inductive GoValue where
  | goNil
  | goString (s : String)
  | goTerminal (v : String)
  | goRuleVal (name : String)
  | goPtrTerminal (v : String)
deriving DecidableEq, Repr

/-- `Terminal.Equal`: `self == other` is interface equality — true exactly
when the dynamic type of `other` is `Terminal` and the values are equal;
otherwise the assertion `other.(string)` is tried and the strings compared;
otherwise false. -/
def terminalEqual (v : String) (other : GoValue) : Bool :=
  if other = .goTerminal v then true
  else
    match other with
    | .goString s => s = v
    | _ => false

/-- The grammar `S → a` (rule 0, production 0). -/
def gS : Grammar :=
  { rules := [⟨"S", [0]⟩], prods := [⟨[.terminalV "a"]⟩] }

/-- The grammar `S → ε` (rule 0, the empty production 0). -/
def gEps : Grammar :=
  { rules := [⟨"S", [0]⟩], prods := [⟨[]⟩] }

/-- The arithmetic grammar of the tests: `SYM → a` (rule 0, production 0),
`OP → +` (rule 1, production 1), `EXPR → SYM | EXPR OP EXPR` (rule 2,
productions 2 and 3); non-terminal occurrences are `*Rule` pointers, exactly
as built by `NewProductionFromTerms`. -/
def arithG : Grammar :=
  { rules := [⟨"SYM", [0]⟩, ⟨"OP", [1]⟩, ⟨"EXPR", [2, 3]⟩],
    prods := [⟨[.terminalV "a"]⟩, ⟨[.terminalV "+"]⟩, ⟨[.rulePtr 0]⟩,
              ⟨[.rulePtr 2, .rulePtr 1, .rulePtr 2]⟩] }

end Gearley3

namespace GearleyPkg

open Gearley3 (GoPanic)

/-!
Embedding of the `gearley` package: `symbol`, `rule`, `earleyItem`,
`stateSet` and `grammar.Parse`.  Rule pointers are represented by indices
into the grammar's rule list (each `Rule(...)` call allocates a distinct
object).  The input string consists of ASCII characters in every analyzed
scenario, so the byte length `len(input)` used by the outer loop bound
equals the rune count, and the input is modelled as its rune list.
-/

/-- `symbol`: `terminal` carries a rune, `nonTerminal` a name. -/
inductive GSym where
  | term (c : Char)
  | nonterm (name : String)
deriving DecidableEq, Repr

/-- `rule`: left non-terminal name and right-hand side symbols. -/
structure GRule where
  left : String
  right : List GSym
deriving DecidableEq, Repr

structure GGrammar where
  rules : List GRule
deriving DecidableEq, Repr

/-- `earleyItem`: rule pointer (index), dot, origin index. -/
structure GItem where
  rule : Nat
  dot : Nat
  index : Nat
deriving DecidableEq, Repr

/-- `stateSet`: the ordered `items` slice and the `itemSet` dedup map
(`map[earleyItem]bool`), modelled as the list of keys ever stored.  The two
can disagree: `newStateSetFromRules` fills `items` only. -/
structure GStateSet where
  items : List GItem
  itemSet : List GItem
deriving DecidableEq, Repr

abbrev GState := List GStateSet

def newStateSet : GStateSet := ⟨[], []⟩

/-- `stateSet.putItem`: skip when the item is a key of `itemSet`, otherwise
append it to both `items` and `itemSet`. -/
def putItem (s : GStateSet) (item : GItem) : GStateSet :=
  if item ∈ s.itemSet then s
  else { items := s.items ++ [item], itemSet := s.itemSet ++ [item] }

/-- `newStateSetFromRules`: one item `(r, dot 0, index 0)` per rule, stored
directly in `items`; the `itemSet` map of the fresh set stays empty. -/
def newStateSetFromRules (rules : List GRule) : GStateSet :=
  { items := (List.range rules.length).map (fun i => ⟨i, 0, 0⟩), itemSet := [] }

/-- `initializeState`: `len(runes) + 1` fresh sets, with set 0 replaced by
`newStateSetFromRules(g.rules)`. -/
def initializeStateG (g : GGrammar) (runes : List Char) : GState :=
  newStateSetFromRules g.rules :: List.replicate runes.length newStateSet

def gRuleAt (g : GGrammar) (rid : Nat) : GRule :=
  g.rules.getD rid ⟨"", []⟩

/-- `earleyItem.isCompleted`: `dot == rule.length()`. -/
def gIsCompleted (g : GGrammar) (it : GItem) : Bool :=
  it.dot == (gRuleAt g it.rule).right.length

/-- `stateSet.findItemsToComplete`: walk every item of the set (completed
ones included) and evaluate `item.rule.right[item.dot]` — an index out of
range when the item is completed; collect the items whose next symbol is
the non-terminal with the given name. -/
def findItemsToComplete (g : GGrammar) (items : List GItem) (tname : String) :
    Except GoPanic (List GItem) :=
  match items with
  | [] => .ok []
  | it :: rest =>
      match (gRuleAt g it.rule).right.get? it.dot with
      | none => .error .indexOutOfRange
      | some (.nonterm n) =>
          if n = tname then
            match findItemsToComplete g rest tname with
            | .error e => .error e
            | .ok cs => .ok (it :: cs)
          else findItemsToComplete g rest tname
      | some (.term _) => findItemsToComplete g rest tname

/-- `grammar.getRulesForSymbol`: the rules whose left-hand side equals the
symbol, in definition order (returned as rule indices). -/
def getRulesForSymbol (g : GGrammar) (n : String) : List Nat :=
  (List.range g.rules.length).filter (fun i => (gRuleAt g i).left == n)

/-- Replace state set `i` (writing through the `*stateSet` pointer). -/
def gSetAt (st : GState) (i : Nat) (s : GStateSet) : GState :=
  st.set i s

/-- The inner loop of `grammar.Parse` (`for i < set.length()`, the length
re-read through the live pointer each iteration).  For the current item:
if completed, find the items to complete in the origin set and put their
advances into the current set; otherwise evaluate
`inputRunes[stateIndex]` (an index out of range at the last state set),
then scan when the next symbol is a matching terminal, else predict when it
is a non-terminal. -/
def gInner (g : GGrammar) (runes : List Char) (stateIndex : Nat) :
    Nat → GState → Nat → Option (Except GoPanic GState)
  | 0, _, _ => none
  | fuel + 1, st, i =>
      match st.get? stateIndex with
      | none => some (.error .indexOutOfRange)
      | some set =>
          if h : i < set.items.length then
            let item := set.items.get ⟨i, h⟩
            if gIsCompleted g item then
              match st.get? item.index with
              | none => some (.error .indexOutOfRange)
              | some originalSet =>
                  match findItemsToComplete g originalSet.items (gRuleAt g item.rule).left with
                  | .error e => some (.error e)
                  | .ok cands =>
                      let st1 := cands.foldl
                        (fun st2 itc =>
                          match st2.get? stateIndex with
                          | some s => gSetAt st2 stateIndex (putItem s ⟨itc.rule, itc.dot + 1, itc.index⟩)
                          | none => st2)
                        st
                      gInner g runes stateIndex fuel st1 (i + 1)
            else
              match runes.get? stateIndex with
              | none => some (.error .indexOutOfRange)
              | some r =>
                  match (gRuleAt g item.rule).right.get? item.dot with
                  | none => some (.error .indexOutOfRange)
                  | some nextSym =>
                      if (match nextSym with | .term c => c == r | .nonterm _ => false) then
                        match st.get? (stateIndex + 1) with
                        | none => some (.error .indexOutOfRange)
                        | some nextSet =>
                            gInner g runes stateIndex fuel
                              (gSetAt st (stateIndex + 1)
                                (putItem nextSet ⟨item.rule, item.dot + 1, item.index⟩))
                              (i + 1)
                      else if (match nextSym with | .term _ => false | .nonterm _ => true) then
                        let n := (match nextSym with | .nonterm nm => nm | .term _ => "")
                        let st1 := (getRulesForSymbol g n).foldl
                          (fun st2 rid =>
                            match st2.get? stateIndex with
                            | some s => gSetAt st2 stateIndex (putItem s ⟨rid, 0, stateIndex⟩)
                            | none => st2)
                          st
                        gInner g runes stateIndex fuel st1 (i + 1)
                      else gInner g runes stateIndex fuel st (i + 1)
          else some (.ok st)

/-- The outer loop of `grammar.Parse`: `for stateIndex <= len(input)`,
i.e. `len(input) + 1` iterations; the first argument counts the remaining
iterations. -/
def gOuter (g : GGrammar) (runes : List Char) (fuel : Nat) :
    Nat → Nat → GState → Option (Except GoPanic GState)
  | 0, _, st => some (.ok st)
  | k + 1, stateIndex, st =>
      match gInner g runes stateIndex fuel st 0 with
      | none => none
      | some (.error e) => some (.error e)
      | some (.ok st1) => gOuter g runes fuel k (stateIndex + 1) st1

/-- `grammar.Parse` (its observable effect: the final state of the state
sets, or the runtime panic it hits).  `fuel` bounds each inner loop;
`none` means a loop was cut short by fuel, which never happens in the runs
proved about below. -/
def gearleyParse (g : GGrammar) (runes : List Char) (fuel : Nat) :
    Option (Except GoPanic GState) :=
  gOuter g runes fuel (runes.length + 1) 0 (initializeStateG g runes)

/-- The grammar `S → A`, `A → a` (rules 0 and 1). -/
def gSA : GGrammar := ⟨[⟨"S", [.nonterm "A"]⟩, ⟨"A", [.term 'a']⟩]⟩

/-- The grammar `S → a`, `A → a b` (rules 0 and 1). -/
def gScanEdge : GGrammar := ⟨[⟨"S", [.term 'a']⟩, ⟨"A", [.term 'a', .term 'b']⟩]⟩

end GearleyPkg

namespace Gearley3

lemma asPtrRule_eq_none (d : GoDyn) : asPtrRule d = none := by
  cases d <;> rfl

lemma asPtrTerminal_eq_none (d : GoDyn) : asPtrTerminal d = none := by
  cases d <;> rfl

lemma foldl_const {α : Type _} {β : Type _} (l : List β) (acc : α) (f : α → β → α)
    (h : ∀ a b, f a b = a) : l.foldl f acc = acc := by
  induction l generalizing acc with
  | nil => rfl
  | cons x xs ih => rw [List.foldl_cons, h]; exact ih acc

lemma completeGo_eq (g : Grammar) (ch : Chart) (k : Nat) (s : TableState) :
    completeGo g ch k s = (ch, false) := by
  unfold completeGo
  apply foldl_const
  intro a b
  simp [asPtrRule_eq_none]

lemma epsilonPassGo_eq (g : Grammar) (ch : Chart) (k : Nat) :
    epsilonPassGo g ch k = (ch, false) := by
  unfold epsilonPassGo
  apply foldl_const
  intro a b
  rcases a with ⟨c, bb⟩
  simp only [asPtrRule_eq_none]
  by_cases hc : isCompleted g.prods b
  · cases bb <;> simp [hc, orCall, completeGo_eq]
  · simp [hc]

lemma handleEpsilonsGo_succ (g : Grammar) (ch : Chart) (k fuel : Nat) :
    handleEpsilonsGo g ch k (fuel + 1) = some ch := by
  simp [handleEpsilonsGo, epsilonPassGo_eq]

lemma stepBody_eq (g : Grammar) (ch : Chart) (i : Nat) (s : TableState) :
    stepBody g ch i s = ch := by
  unfold stepBody
  simp [asPtrRule_eq_none, asPtrTerminal_eq_none, completeGo_eq]

lemma stepInner_const (g : Grammar) (ch : Chart) (i : Nat) :
    ∀ (fuel j : Nat), (colAt ch i).states.length ≤ j + fuel →
      stepInner g ch i j (fuel + 1) = some ch := by
  intro fuel
  induction fuel with
  | zero =>
      intro j hj
      show (if h : j < (colAt ch i).states.length then
          stepInner g (stepBody g ch i ((colAt ch i).states.get ⟨j, h⟩)) i (j + 1) 0
        else some ch) = some ch
      rw [dif_neg (by omega)]
  | succ fuel ih =>
      intro j hj
      show (if h : j < (colAt ch i).states.length then
          stepInner g (stepBody g ch i ((colAt ch i).states.get ⟨j, h⟩)) i (j + 1) (fuel + 1)
        else some ch) = some ch
      by_cases h : j < (colAt ch i).states.length
      · rw [dif_pos h, stepBody_eq]
        exact ih (j + 1) (by omega)
      · rw [dif_neg h]

lemma processColumns_const (g : Grammar) (ch : Chart) :
    ∀ (idxs : List Nat), (∀ i ∈ idxs, (colAt ch i).states.length ≤ 1) →
      processColumns g 2 ch idxs = some ch := by
  intro idxs
  induction idxs with
  | nil => intro _; rfl
  | cons i rest ih =>
      intro h
      have h1 : stepInner g ch i 0 2 = some ch :=
        stepInner_const g ch i 1 0 (by simpa using h i (by simp))
      have h2 : handleEpsilonsGo g ch i 2 = some ch := handleEpsilonsGo_succ g ch i 1
      have h3 : processColumns g 2 ch rest = some ch :=
        ih (fun x hx => h x (by simp [hx]))
      simp [processColumns, h1, h2, h3]

lemma mkCols_getD_states : ∀ (ts : List String) (i n : Nat),
    ((mkCols ts i).getD n defaultCol).states = [] := by
  intro ts
  induction ts with
  | nil => intro i n; rfl
  | cons t ts ih =>
      intro i n
      cases n with
      | zero => rfl
      | succ n => exact ih (i + 1) n

lemma mkCols_length : ∀ (ts : List String) (i : Nat), (mkCols ts i).length = ts.length := by
  intro ts
  induction ts with
  | nil => intro i; rfl
  | cons t ts ih => intro i; simp [mkCols, ih]

lemma seedChart_col_len (g : Grammar) (tokens : List String) (n : Nat) :
    (colAt (seedChart g tokens) n).states.length ≤ 1 := by
  cases n with
  | zero => exact le_refl 1
  | succ n =>
      have : colAt (seedChart g tokens) (n + 1) = (mkCols tokens 1).getD n defaultCol := rfl
      rw [this, mkCols_getD_states]
      exact Nat.zero_le 1

lemma getD_append_length {α : Type _} : ∀ (l : List α) (a d : α),
    (l ++ [a]).getD l.length d = a := by
  intro l
  induction l with
  | nil => intro a d; rfl
  | cons x xs ih => intro a d; exact ih a d

lemma seed_not_completed (g : Grammar) (r : Nat) :
    isCompleted (withGamma g r).prods ⟨GAMMA_RULE, g.prods.length, 0, 0, none⟩ = false := by
  simp [isCompleted, withGamma, prodAt, getD_append_length]

/-- The central evaluation fact about the shipped `earley3` parser: since
the type switch of `parse` and the type assertions of `complete` and
`handleEpsilons` inspect values of dynamic type `*ProductionTerm`, no
predict, scan or complete ever inserts anything; the chart stays the seeded
chart and the final-state search always comes back empty. -/
lemma parseGo_eq (g : Grammar) (r : Nat) (tokens : List String) :
    parseGo g r tokens 2 = some (seedChart g tokens, none) := by
  have hp : processColumns (withGamma g r) 2 (seedChart g tokens)
      (List.range (seedChart g tokens).length) = some (seedChart g tokens) :=
    processColumns_const _ _ _ (fun i _ => seedChart_col_len g tokens i)
  have hfind : (colAt (seedChart g tokens) ((seedChart g tokens).length - 1)).states.find?
      (fun s => s.name == GAMMA_RULE && isCompleted (withGamma g r).prods s) = none := by
    cases tokens with
    | nil =>
        have h0 : colAt (seedChart g []) ((seedChart g []).length - 1)
            = ⟨"", 0, [⟨GAMMA_RULE, g.prods.length, 0, 0, none⟩]⟩ := rfl
        rw [h0]
        simp [List.find?, seed_not_completed g r]
    | cons t ts =>
        have hlen : (seedChart g (t :: ts)).length - 1 = ts.length + 1 := by
          simp [seedChart, mkCols_length, mkCols]
        rw [hlen]
        have h1 : colAt (seedChart g (t :: ts)) (ts.length + 1)
            = (mkCols (t :: ts) 1).getD ts.length defaultCol := rfl
        rw [h1, ]
        have h2 : ((mkCols (t :: ts) 1).getD ts.length defaultCol).states = [] :=
          mkCols_getD_states (t :: ts) 1 ts.length
        rw [h2]
        rfl
  simp [parseGo, hp, hfind]

lemma insertGo_true (col : TableColumn) (s : TableState)
    (h : (insertGo col s).2.2 = true) :
    (insertGo col s).1.states.length = col.states.length + 1 := by
  revert h
  unfold insertGo
  cases hf : col.states.find? (fun s0 => s0 == s) <;> simp [hf]

lemma insertGo_false (col : TableColumn) (s : TableState)
    (h : (insertGo col s).2.2 = false) :
    (insertGo col s).1 = col := by
  revert h
  unfold insertGo
  cases hf : col.states.find? (fun s0 => s0 == s) <;> simp [hf]

lemma predictFold_cons (name : String) (colIdx : Nat) (pid : Nat) (rest : List Nat)
    (acc : TableColumn × Bool) :
    predictFold name colIdx (pid :: rest) acc
      = predictFold name colIdx rest
          ((insertGo acc.1 ⟨name, pid, 0, colIdx, none⟩).1,
            acc.2 || (insertGo acc.1 ⟨name, pid, 0, colIdx, none⟩).2.2) := rfl

lemma predictFold_len_mono (name : String) (colIdx : Nat) :
    ∀ (pids : List Nat) (acc : TableColumn × Bool),
      acc.1.states.length ≤ (predictFold name colIdx pids acc).1.states.length := by
  intro pids
  induction pids with
  | nil => intro acc; exact le_refl _
  | cons pid rest ih =>
      intro acc
      rw [predictFold_cons]
      refine le_trans ?_ (ih _)
      cases hw : (insertGo acc.1 ⟨name, pid, 0, colIdx, none⟩).2.2
      · rw [insertGo_false _ _ hw]
      · rw [insertGo_true _ _ hw]; omega

lemma predictFold_changed (name : String) (colIdx : Nat) :
    ∀ (pids : List Nat) (acc : TableColumn × Bool),
      ((predictFold name colIdx pids acc).2 = true
        ↔ acc.2 = true ∨ acc.1.states.length < (predictFold name colIdx pids acc).1.states.length) := by
  intro pids
  induction pids with
  | nil =>
      intro acc
      simp [predictFold]
  | cons pid rest ih =>
      intro acc
      rw [predictFold_cons]
      cases hw : (insertGo acc.1 ⟨name, pid, 0, colIdx, none⟩).2.2
      · rw [insertGo_false _ _ hw, Bool.or_false]
        exact ih (acc.1, acc.2)
      · have hl := insertGo_true _ _ hw
        rw [Bool.or_true]
        apply iff_of_true
        · have := ih ((insertGo acc.1 ⟨name, pid, 0, colIdx, none⟩).1, true)
          exact this.mpr (Or.inl rfl)
        · right
          have hm := predictFold_len_mono name colIdx rest
            ((insertGo acc.1 ⟨name, pid, 0, colIdx, none⟩).1, true)
          simp only at hm
          omega

lemma predictGo_changed (g : Grammar) (col : TableColumn) (rid : Nat) :
    (predictGo g col rid).2 = true
      ↔ col.states.length < (predictGo g col rid).1.states.length := by
  have h := predictFold_changed (ruleAt g rid).name col.index
    (ruleAt g rid).productions (col, false)
  simpa [predictGo] using h

end Gearley3

open Gearley3 GearleyPkg

/-- C1: the claim states that the recognizer accepts exactly the token
sequences in `L(G)`, witnessed by a completed gamma item of origin 0 in the
final column.  The code refutes it: for the grammar `S → a` the input
`["a"]` is derivable from `S`, yet `parse` produces no final state — the
type switch on the `*ProductionTerm` returned by `getNextTerm` matches
neither `case *Rule:` nor `case *Terminal:`, so predict and scan never run
and the final column never holds a completed gamma item. -/
theorem claim_C1_derivable_input_rejected :
    DerivesT gS (.rulePtr 0) ["a"]
      ∧ (parseGo gS 0 ["a"] 2).map Prod.snd = some none := by
  constructor
  · refine DerivesT.nonterm 0 0 ["a"] (by decide) ?_
    have h := DerivesL.cons (g := gS) (.terminalV "a") [] ["a"] []
      (DerivesT.terminal "a") DerivesL.nil
    simpa [prodAt, gS] using h
  · rw [parseGo_eq]; rfl

/-- C2: the claim states that `a + a + a` parses with 2 trees and the
7-operand input with 132 trees.  The code refutes it: with the arithmetic
grammar both inputs are rejected (no final gamma state exists), and
`getTrees` then dereferences the nil final state instead of returning
trees. -/
theorem claim_C2_arith_rejected_and_getTrees_panics :
    (parseGo arithG 2 (goFields "a + a + a") 2).map Prod.snd = some none
      ∧ (parseGo arithG 2 (goFields "a + a + a + a + a + a + a") 2).map Prod.snd = some none
      ∧ (parseGo arithG 2 (goFields "a + a + a") 2).bind
          (fun res => getTreesGo (withGamma arithG 2) res 1)
        = some (.error .nilPointerDereference) :=
  ⟨rfl, rfl, rfl⟩

/-- C3: the claim states that a column never holds two items equal in
(production handle, dot, origin) and that insertion of an equal item is
suppressed.  The code refutes it twice.  `TableColumn.insert` compares the
whole struct including `endCol`, which insert itself sets on the stored
item, so a fresh candidate (nil `endCol`) never compares equal to a stored
one: inserting `(X, production 0, dot 1, origin 0)` into a column already
holding exactly that item appends a duplicate.  In the `gearley` package,
`newStateSetFromRules` fills `items` but leaves the `itemSet` map empty, so
running `Parse` on the grammar `S → A, A → a` with input `a` leaves state
set 0 holding the item `(A → · a, 0)` twice. -/
theorem claim_C3_insert_appends_equal_items :
    ((insertGo ⟨"", 5, [⟨"X", 0, 1, 0, some 5⟩]⟩ ⟨"X", 0, 1, 0, none⟩).1.states.map
          (fun s => (s.production, s.dotIndex, s.startCol))
        = [(0, 1, 0), (0, 1, 0)]
      ∧ (insertGo ⟨"", 5, [⟨"X", 0, 1, 0, some 5⟩]⟩ ⟨"X", 0, 1, 0, none⟩).2.2 = true)
    ∧ (gearleyParse gSA ['a'] 20).map
          (Except.map (fun st => (st.getD 0 newStateSet).items.count ⟨1, 0, 0⟩))
        = some (.ok 2) :=
  ⟨⟨rfl, rfl⟩, rfl⟩

/-- C4: recognition and forest extraction halt for every grammar and every
token sequence.  Recognition halts within a uniform fuel bound (no
insertion ever happens, so every inner walk visits only the seeded states
and every epsilon pass is a no-op), and tree extraction returns immediately
(here: the nil-state dereference, since no run produces a final state). -/
theorem claim_C4_recognition_and_extraction_halt :
    ∀ (g : Grammar) (r : Nat) (tokens : List String),
      (parseGo g r tokens 2).isSome = true
        ∧ ((parseGo g r tokens 2).bind
            (fun res => getTreesGo (withGamma g r) res 1)).isSome = true := by
  intro g r tokens
  rw [parseGo_eq]
  exact ⟨rfl, rfl⟩

/-- C5: `predict` (and `complete`) return true exactly when at least one of
their inserts added a new item — the pointer comparison `st == st2`
coincides with `was_new` because insert hands back the freshly allocated
argument exactly when it appends — and the `handleEpsilons` loop stops
exactly when a full pass makes no insertions (in this code the very first
pass never inserts, so the loop stops after it). -/
theorem claim_C5_changed_iff_new_insertion :
    (∀ (g : Grammar) (col : TableColumn) (rid : Nat),
        (predictGo g col rid).2 = true
          ↔ col.states.length < (predictGo g col rid).1.states.length)
    ∧ (∀ (g : Grammar) (ch : Chart) (k : Nat) (s : TableState),
        (completeGo g ch k s).2 = true
          ↔ (colAt ch k).states.length < (colAt (completeGo g ch k s).1 k).states.length)
    ∧ (∀ (g : Grammar) (ch : Chart) (k : Nat), epsilonPassGo g ch k = (ch, false))
    ∧ (∀ (g : Grammar) (ch : Chart) (k fuel : Nat),
        handleEpsilonsGo g ch k (fuel + 1) = some ch) := by
  refine ⟨predictGo_changed, ?_, epsilonPassGo_eq, handleEpsilonsGo_succ⟩
  intro g ch k s
  rw [completeGo_eq]
  simp

/-- Witness for C5: at a concrete column and rule, `predict` reports a
change, obtained from the theorem's first equivalence. -/
theorem claim_C5_witness :
    (predictGo gS ⟨"", 0, []⟩ 0).2 = true :=
  (claim_C5_changed_iff_new_insertion.1 gS ⟨"", 0, []⟩ 0).mpr (by decide)

/-- C6: the claim states that scan is attempted only when `k < N` so that
`t[k]` and column `k+1` stay in bounds, and that non-applicability never
fails.  The code refutes it: `grammar.Parse` evaluates
`inputRunes[stateIndex]` for every non-completed item, including in the
last state set where `stateIndex` equals the input length — with the
grammar `S → a, A → a b` and input `a`, the non-completed item
`(A → a · b, 0)` in set 1 makes it index position 1 of a 1-rune input, an
index out of range (the source's own TODO comment flags this edge case). -/
theorem claim_C6_scan_index_out_of_range :
    gearleyParse gScanEdge ['a'] 20 = some (.error .indexOutOfRange) :=
  rfl

/-- C7 counterexample: the claim states that after seeding, column 0
contains exactly one item, the gamma item.  The `gearley` recognizer's
`initializeState` refutes it: with the two-rule grammar `S → A, A → a`,
state set 0 holds two items (one per grammar rule; no gamma rule exists in
this package at all). -/
theorem claim_C7_counterexample :
    ¬ ((initializeStateG gSA ['a']).getD 0 newStateSet).items.length = 1 := by
  decide

/-- C7 amended: the `earley3` parser seeds column 0 with exactly the gamma
item `(ɣ → · Start, dot 0, origin 0)` whose production has the start rule as
its single term, while the `gearley` recognizer seeds state set 0 with one
item `(r, dot 0, origin 0)` for every rule of the grammar and defines no
gamma rule. -/
theorem claim_C7_amended_seeding :
    (∀ (g : Grammar) (tokens : List String),
        colAt (seedChart g tokens) 0
          = ⟨"", 0, [⟨GAMMA_RULE, g.prods.length, 0, 0, none⟩]⟩)
    ∧ (∀ (g : Grammar) (r : Nat),
        prodAt (withGamma g r).prods g.prods.length = ⟨[.rulePtr r]⟩)
    ∧ (∀ (g : GGrammar) (runes : List Char),
        ((initializeStateG g runes).getD 0 newStateSet).items
          = (List.range g.rules.length).map (fun i => ⟨i, 0, 0⟩)) := by
  refine ⟨fun g tokens => rfl, fun g r => ?_, fun g runes => rfl⟩
  exact getD_append_length g.prods _ _

/-- C8: the claim states that on rejection `getTrees` returns an empty tree
list without raising any error (example: the arithmetic grammar on `a +`).
The code refutes the second half: `a +` is indeed rejected (no final
state), but `getTrees` then calls `buildTrees(nil)` which dereferences the
nil state's `production` field — a runtime panic, not an empty list. -/
theorem claim_C8_rejection_getTrees_panics :
    (parseGo arithG 2 (goFields "a +") 2).map Prod.snd = some none
      ∧ (parseGo arithG 2 (goFields "a +") 2).bind
          (fun res => getTreesGo (withGamma arithG 2) res 1)
        = some (.error .nilPointerDereference) :=
  ⟨rfl, rfl⟩

/-- C9 counterexample: the claim states that on an empty token list the
recognizer accepts exactly when the start symbol derives the empty string.
The code refutes it: for the grammar `S → ε` the start symbol derives
epsilon, yet `parse` on zero tokens produces no final state (the seeded
gamma item never advances). -/
theorem claim_C9_counterexample :
    DerivesT gEps (.rulePtr 0) []
      ∧ (parseGo gEps 0 [] 2).map Prod.snd = some none := by
  constructor
  · exact DerivesT.nonterm 0 0 [] (by decide) DerivesL.nil
  · rw [parseGo_eq]; rfl

/-- C9 amended: on an empty token list the recognizer always rejects —
`parse` returns no final state for every grammar and start rule. -/
theorem claim_C9_amended_empty_input_rejected :
    ∀ (g : Grammar) (r : Nat), (parseGo g r [] 2).map Prod.snd = some none := by
  intro g r
  rw [parseGo_eq]
  rfl

/-- C10: `Terminal{Value: v}.Equal(x)` is true exactly when `x` is a
`Terminal` value with the same `Value` or a string equal to `v`; in
particular it is false on nil, on a different `Terminal`, on a `Rule`
value, on a `*Terminal` pointer, and (for nonempty `v`) on the empty
string and the empty `Terminal`. -/
theorem claim_C10_terminal_equal_iff :
    ∀ (v : String) (x : GoValue),
      terminalEqual v x = true ↔ (x = .goTerminal v ∨ x = .goString v) := by
  intro v x
  cases x with
  | goNil => simp [terminalEqual]
  | goString s => simp [terminalEqual]
  | goTerminal w =>
      by_cases h : w = v
      · subst h; simp [terminalEqual]
      · simp [terminalEqual, h]
  | goRuleVal n => simp [terminalEqual]
  | goPtrTerminal w => simp [terminalEqual]

/-- Witness for C10: the equality from the repository test (`TestTermEqual`)
holds at the concrete terminal `刘占亮`, obtained from the theorem. -/
theorem claim_C10_witness :
    terminalEqual "刘占亮" (.goString "刘占亮") = true
      ∧ terminalEqual "刘占亮" .goNil = false :=
  ⟨(claim_C10_terminal_equal_iff "刘占亮" (.goString "刘占亮")).mpr (Or.inr rfl), rfl⟩

